import Mathlib

/-!
Shallow embedding of the rusty-dice library (src/lib.rs) and proofs of its
specification claims.

A random source is modelled as a stream of natural numbers together with a
position; each draw consumes one element of the stream.  The two sampling
primitives of the `rand` crate used by the code are modelled from their
documented contracts: `gen_range(low, high)` samples the half-open interval
[low, high) and panics when the interval is empty, and
`Uniform::new_inclusive(min, max)` builds a distribution over the closed
interval [min, max].  Panics are modelled as `none` / `Option`.
-/

namespace RustyDice

/-- A random or pseudo-random number generator state: an infinite stream of
raw draws together with a current position. -/
structure Rng where
  stream : Nat → Nat
  pos : Nat

/-- Draw one raw value and advance the generator. -/
def Rng.next (r : Rng) : Nat × Rng :=
  (r.stream r.pos, ⟨r.stream, r.pos + 1⟩)

/-- Modelled from the spec: the `rand` crate primitive `rng.gen_range(low, high)`
samples uniformly from the half-open interval [low, high); it panics
(modelled as `none`) when the interval is empty. -/
def genRange (low high : Nat) (r : Rng) : Option (Nat × Rng) :=
  if low < high then
    let p := r.next
    some (low + p.1 % (high - low), p.2)
  else
    none

/-- Modelled from the spec: the `rand` crate distribution
`Uniform::new_inclusive(min, max)` over the closed interval [min, max]
(precondition of the crate: min ≤ max). -/
structure Uniform where
  low : Int
  high : Int

/-- Modelled from the spec: `Uniform::new_inclusive`. -/
def Uniform.new_inclusive (min max : Int) : Uniform :=
  ⟨min, max⟩

/-- Modelled from the spec: `rng.sample(&uniform)` draws one raw value and maps
it into the closed interval [low, high]. -/
def Uniform.sample (u : Uniform) (r : Rng) : Int × Rng :=
  let p := r.next
  (u.low + Int.ofNat (p.1 % (u.high - u.low + 1).toNat), p.2)

/-- `struct GenericDie<T> { faces: Vec<T> }`: a die with arbitrary data or
symbols on its faces; faces need not be unique. -/
structure GenericDie (T : Type) where
  faces : List T

/-- `impl RollableDie<T> for GenericDie<T>`: draw an index with
`rng.gen_range(0, self.faces.len())` and return a clone of the face at that
index.  A panic of `gen_range` (empty face list) or of the indexing is `none`. -/
def GenericDie.roll {T : Type} (d : GenericDie T) (r : Rng) : Option (T × Rng) :=
  match genRange 0 d.faces.length r with
  | none => none
  | some (i, r2) =>
    match d.faces.get? i with
    | none => none
    | some v => some (v, r2)

/-- `impl RollableDie<T> for &GenericDie<T>`: the by-reference implementation,
with the same body as the owned one. -/
def GenericDie.rollRef {T : Type} (d : GenericDie T) (r : Rng) : Option (T × Rng) :=
  match genRange 0 d.faces.length r with
  | none => none
  | some (i, r2) =>
    match d.faces.get? i with
    | none => none
    | some v => some (v, r2)

/-- `GenericDie::new_from(iterator)`: collect the yielded values, in order,
as the face list.  The iterator is modelled as the list of its items. -/
def GenericDie.new_from {T : Type} (l : List T) : GenericDie T :=
  ⟨l⟩

/-- `struct RangeDie<T> { faces: Uniform<T> }`: a die whose faces are numbered
min..max inclusive, stored as the uniform distribution over that interval.
Specialised to `T = i32`, modelled as `Int`. -/
structure RangeDie where
  faces : Uniform

/-- `RangeDie::new(min, max)`: store `Uniform::new_inclusive(min, max)`. -/
def RangeDie.new (min max : Int) : RangeDie :=
  ⟨Uniform.new_inclusive min max⟩

/-- `impl RollableDie<T> for RangeDie<T>`: `rng.sample(&self.faces)`. -/
def RangeDie.roll (d : RangeDie) (r : Rng) : Int × Rng :=
  d.faces.sample r

/-- `impl RollableDie<T> for &RangeDie<T>`: the by-reference implementation,
with the same body as the owned one. -/
def RangeDie.rollRef (d : RangeDie) (r : Rng) : Int × Rng :=
  d.faces.sample r

/-- `n_sided(n)`: create an n-sided die numbered 1..n inclusive, or an error
for an invalid number of sides. -/
def n_sided (n : Int) : Except String RangeDie :=
  if n < 1 then
    Except.error "Invalid number of sides for a die."
  else
    Except.ok (RangeDie.new 1 n)

/-- `.unwrap()` on a `Result`: the value, or a panic (`none`) on an error. -/
def unwrapDie (e : Except String RangeDie) : Option RangeDie :=
  match e with
  | Except.ok d => some d
  | Except.error _ => none

/-- `d100()`: convenience wrapper `n_sided(100).unwrap()`. -/
def d100 : Option RangeDie := unwrapDie (n_sided 100)

/-- `d20()`: convenience wrapper `n_sided(20).unwrap()`. -/
def d20 : Option RangeDie := unwrapDie (n_sided 20)

/-- `d12()`: convenience wrapper `n_sided(12).unwrap()`. -/
def d12 : Option RangeDie := unwrapDie (n_sided 12)

/-- `d10()`: convenience wrapper `n_sided(10).unwrap()`. -/
def d10 : Option RangeDie := unwrapDie (n_sided 10)

/-- `d8()`: convenience wrapper `n_sided(8).unwrap()`. -/
def d8 : Option RangeDie := unwrapDie (n_sided 8)

/-- `d6()`: convenience wrapper `n_sided(6).unwrap()`. -/
def d6 : Option RangeDie := unwrapDie (n_sided 6)

/-- `d4()`: convenience wrapper `n_sided(4).unwrap()`. -/
def d4 : Option RangeDie := unwrapDie (n_sided 4)

/-- `d2()`: convenience wrapper for 2-sided dice; the source calls
`n_sided(3).unwrap()`. -/
def d2 : Option RangeDie := unwrapDie (n_sided 3)

/-- `enum CoinFace { Heads, Tails }`. -/
inductive CoinFace where
  | Heads
  | Tails
deriving DecidableEq

/-- `coin_flip()`: match on `thread_rng().gen_range(0, 2)`, mapping 0 to Heads
and 1 to Tails; any other value hits the `unreachable!()` arm (`none`).
The thread-local generator is modelled as the explicit argument. -/
def coin_flip (r : Rng) : Option (CoinFace × Rng) :=
  match genRange 0 2 r with
  | some (0, r2) => some (CoinFace.Heads, r2)
  | some (1, r2) => some (CoinFace.Tails, r2)
  | _ => none

/-- `n_rolls(n, d)`: obtain one generator at the start and map each of the `n`
iterations to a roll of the die with that generator, collecting the results in
order.  The roll operation of the die's `RollableDie` instance is passed
explicitly; a panic of any roll propagates as `none`. -/
def n_rolls {D T : Type} (dieRoll : D → Rng → Option (T × Rng)) :
    Nat → D → Rng → Option (List T × Rng)
  | 0, _, r => some ([], r)
  | n + 1, d, r =>
    match dieRoll d r with
    | none => none
    | some (x, r2) =>
      match n_rolls dieRoll n d r2 with
      | none => none
      | some (l, r3) => some (x :: l, r3)

/-- The generator state after `i` successive rolls of die `d`, starting from
state `r` (used to characterise `n_rolls` as successive rolls of one threaded
source). -/
def rollStates {D T : Type} (dieRoll : D → Rng → Option (T × Rng)) (d : D) :
    Nat → Rng → Option Rng
  | 0, r => some r
  | i + 1, r =>
    match dieRoll d r with
    | none => none
    | some (_, r2) => rollStates dieRoll d i r2

/-- A deterministic generator whose stream is constantly `c`, starting at
position 0; used to exhibit reachability of particular outcomes. -/
def constRng (c : Nat) : Rng :=
  ⟨fun _ => c, 0⟩

/-- A deterministic generator whose stream is the identity, at position `p`. -/
def natRng (p : Nat) : Rng :=
  ⟨fun i => i, p⟩

end RustyDice

namespace RustyDice

/-- C1: for every n ≥ 1, `n_sided n` succeeds, every roll of the resulting die
lies in the inclusive interval [1, n] (inclusive of both bounds), and every
value of [1, n] is produced by some random-source output. -/
theorem n_sided_roll_in_range (n : Int) (hn : 1 ≤ n) :
    ∃ d : RangeDie, n_sided n = Except.ok d ∧
      (∀ r : Rng, 1 ≤ (RangeDie.roll d r).1 ∧ (RangeDie.roll d r).1 ≤ n) ∧
      (∀ v : Int, 1 ≤ v → v ≤ n → ∃ r : Rng, (RangeDie.roll d r).1 = v) := by
  refine ⟨RangeDie.new 1 n, ?_, ?_, ?_⟩
  · unfold n_sided
    rw [if_neg (by omega)]
  · intro r
    simp only [RangeDie.roll, RangeDie.new, Uniform.sample, Uniform.new_inclusive, Rng.next,
      Int.ofNat_eq_natCast]
    have hpos : 0 < (n - 1 + 1).toNat := by omega
    have hlt : r.stream r.pos % (n - 1 + 1).toNat < (n - 1 + 1).toNat :=
      Nat.mod_lt _ hpos
    omega
  · intro v hv1 hv2
    refine ⟨constRng (v - 1).toNat, ?_⟩
    simp only [RangeDie.roll, RangeDie.new, Uniform.sample, Uniform.new_inclusive, Rng.next,
      constRng, Int.ofNat_eq_natCast]
    have hlt : (v - 1).toNat < (n - 1 + 1).toNat := by omega
    rw [Nat.mod_eq_of_lt hlt]
    omega

/-- C1 witness at n = 6. -/
theorem n_sided_roll_in_range_witness :
    (1 : Int) ≤ 6 ∧
      ∃ d : RangeDie, n_sided 6 = Except.ok d ∧
        (∀ r : Rng, 1 ≤ (RangeDie.roll d r).1 ∧ (RangeDie.roll d r).1 ≤ 6) ∧
        (∀ v : Int, 1 ≤ v → v ≤ 6 → ∃ r : Rng, (RangeDie.roll d r).1 = v) :=
  ⟨by norm_num, n_sided_roll_in_range 6 (by norm_num)⟩

/-- C2: `n_sided n` returns an explicit error carrying a descriptive message
exactly when n < 1, and for every n ≥ 1 it returns a `RangeDie` over [1, n]. -/
theorem n_sided_error_iff (n : Int) :
    (n < 1 → n_sided n = Except.error "Invalid number of sides for a die.") ∧
    (1 ≤ n → n_sided n = Except.ok (RangeDie.new 1 n)) ∧
    ((∃ e : String, n_sided n = Except.error e) ↔ n < 1) := by
  by_cases h : n < 1
  · refine ⟨fun _ => by unfold n_sided; rw [if_pos h], fun h1 => absurd h1 (by omega), ?_⟩
    simp only [h, iff_true]
    exact ⟨"Invalid number of sides for a die.", by unfold n_sided; rw [if_pos h]⟩
  · refine ⟨fun h1 => absurd h1 h, fun _ => by unfold n_sided; rw [if_neg h], ?_⟩
    simp only [h, iff_false, not_exists]
    intro e he
    rw [n_sided, if_neg h] at he
    exact Except.noConfusion he

/-- C2 witness at n = 0 and n = 20. -/
theorem n_sided_error_iff_witness :
    n_sided 0 = Except.error "Invalid number of sides for a die." ∧
      n_sided 20 = Except.ok (RangeDie.new 1 20) :=
  ⟨(n_sided_error_iff 0).1 (by norm_num), (n_sided_error_iff 20).2.1 (by norm_num)⟩

/-- C3: every fixed-size convenience constructor unconditionally succeeds:
the internal unwrap of the `n_sided` result is never a panic, since each
wrapper calls `n_sided` with a constant ≥ 1. -/
theorem fixed_wrappers_never_panic :
    d4 = some (RangeDie.new 1 4) ∧ d6 = some (RangeDie.new 1 6) ∧
      d8 = some (RangeDie.new 1 8) ∧ d10 = some (RangeDie.new 1 10) ∧
      d12 = some (RangeDie.new 1 12) ∧ d20 = some (RangeDie.new 1 20) ∧
      d100 = some (RangeDie.new 1 100) ∧ d2 = some (RangeDie.new 1 3) :=
  ⟨rfl, rfl, rfl, rfl, rfl, rfl, rfl, rfl⟩

/-- C4: `d2` constructs a `RangeDie` over [1, 3] (a three-sided die), every
roll of its result lies in [1, 3], and the value 3 is reachable. -/
theorem d2_is_three_sided :
    d2 = some (RangeDie.new 1 3) ∧
      (∀ r : Rng, 1 ≤ (RangeDie.roll (RangeDie.new 1 3) r).1 ∧
        (RangeDie.roll (RangeDie.new 1 3) r).1 ≤ 3) ∧
      (∃ r : Rng, (RangeDie.roll (RangeDie.new 1 3) r).1 = 3) := by
  refine ⟨rfl, ?_, ⟨constRng 2, rfl⟩⟩
  intro r
  simp only [RangeDie.roll, RangeDie.new, Uniform.sample, Uniform.new_inclusive, Rng.next,
    Int.ofNat_eq_natCast]
  have hlt : r.stream r.pos % ((3 : Int) - 1 + 1).toNat < ((3 : Int) - 1 + 1).toNat :=
    Nat.mod_lt _ (by norm_num)
  omega

/-- C7: `coin_flip` always returns Heads or Tails; the `unreachable!()` branch
for any other drawn value is never taken. -/
theorem coin_flip_heads_or_tails (r : Rng) :
    ∃ (f : CoinFace) (r2 : Rng), coin_flip r = some (f, r2) ∧
      (f = CoinFace.Heads ∨ f = CoinFace.Tails) := by
  rcases Nat.mod_two_eq_zero_or_one (r.stream r.pos) with h | h
  · refine ⟨CoinFace.Heads, ⟨r.stream, r.pos + 1⟩, ?_, Or.inl rfl⟩
    simp [coin_flip, genRange, Rng.next, h]
  · refine ⟨CoinFace.Tails, ⟨r.stream, r.pos + 1⟩, ?_, Or.inr rfl⟩
    simp [coin_flip, genRange, Rng.next, h]

/-- C5: whenever `n_rolls k d` returns a sequence, that sequence has length
exactly k (including k = 0), its i-th element is the i-th successive roll of
the die with the single source obtained at the start and threaded (never
reset) between rolls, and the final source state is the k-step advance of the
initial one. -/
theorem n_rolls_length_and_successive {D T : Type}
    (dieRoll : D → Rng → Option (T × Rng)) (k : Nat) (d : D) (r : Rng)
    (l : List T) (rf : Rng)
    (h : n_rolls dieRoll k d r = some (l, rf)) :
    l.length = k ∧ rollStates dieRoll d k r = some rf ∧
      ∀ i : Nat, i < k → ∃ (ri : Rng) (xi : T) (ri2 : Rng),
        rollStates dieRoll d i r = some ri ∧ dieRoll d ri = some (xi, ri2) ∧
          l.get? i = some xi := by
  induction k generalizing r l with
  | zero =>
    rw [n_rolls] at h
    injection h with h
    injection h with h1 h2
    subst h1
    subst h2
    exact ⟨rfl, rfl, fun i hi => absurd hi (Nat.not_lt_zero i)⟩
  | succ k ih =>
    rw [n_rolls] at h
    rcases hd : dieRoll d r with _ | p
    · rw [hd] at h
      exact Option.noConfusion h
    · rcases p with ⟨x, r2⟩
      simp only [hd] at h
      rcases hn : n_rolls dieRoll k d r2 with _ | q
      · rw [hn] at h
        exact Option.noConfusion h
      · rcases q with ⟨l2, r3⟩
        simp only [hn] at h
        injection h with h
        injection h with h1 h2
        subst h1
        subst h2
        obtain ⟨hlen, hst, helt⟩ := ih r2 l2 hn
        refine ⟨by simp [hlen], ?_, ?_⟩
        · rw [rollStates, hd]
          exact hst
        · intro i hi
          cases i with
          | zero => exact ⟨r, x, r2, rfl, hd, rfl⟩
          | succ j =>
            obtain ⟨ri, xi, ri2, hs, hr, he⟩ := helt j (by omega)
            refine ⟨ri, xi, ri2, ?_, hr, ?_⟩
            · rw [rollStates, hd]
              exact hs
            · simpa using he

/-- C5 witness: two rolls of a six-sided die with the identity-stream source. -/
theorem n_rolls_length_and_successive_witness :
    ([1, 2] : List Int).length = 2 ∧
      rollStates (fun (d : RangeDie) (r : Rng) => some (RangeDie.roll d r))
        (RangeDie.new 1 6) 2 (natRng 0) = some (natRng 2) ∧
      ∀ i : Nat, i < 2 → ∃ (ri : Rng) (xi : Int) (ri2 : Rng),
        rollStates (fun (d : RangeDie) (r : Rng) => some (RangeDie.roll d r))
          (RangeDie.new 1 6) i (natRng 0) = some ri ∧
        (fun (d : RangeDie) (r : Rng) => some (RangeDie.roll d r))
          (RangeDie.new 1 6) ri = some (xi, ri2) ∧
        ([1, 2] : List Int).get? i = some xi :=
  n_rolls_length_and_successive
    (fun (d : RangeDie) (r : Rng) => some (RangeDie.roll d r))
    2 (RangeDie.new 1 6) (natRng 0) [1, 2] (natRng 2) rfl

/-- C6: rolling a `GenericDie` with an empty face list fails fast (the
`gen_range` call panics); with a non-empty face list the roll returns the face
at an index below the length, and every index in [0, length) is selected for
some random-source output, the returned value being a copy of the face there. -/
theorem genericDie_roll_fail_fast {T : Type} (d : GenericDie T) (r : Rng) :
    (d.faces = [] → GenericDie.roll d r = none) ∧
      (d.faces ≠ [] → ∃ (i : Nat) (h : i < d.faces.length) (r2 : Rng),
        GenericDie.roll d r = some (d.faces.get ⟨i, h⟩, r2)) ∧
      (∀ (i : Nat) (h : i < d.faces.length), ∃ (r3 : Rng) (r4 : Rng),
        GenericDie.roll d (r3) = some (d.faces.get ⟨i, h⟩, r4)) := by
  refine ⟨?_, ?_, ?_⟩
  · intro h
    simp [GenericDie.roll, genRange, h]
  · intro h
    have hpos : 0 < d.faces.length := List.length_pos.mpr h
    have hlt : r.stream r.pos % d.faces.length < d.faces.length :=
      Nat.mod_lt _ hpos
    refine ⟨r.stream r.pos % d.faces.length, hlt, ⟨r.stream, r.pos + 1⟩, ?_⟩
    simp only [GenericDie.roll, genRange, if_pos hpos, Rng.next, Nat.zero_add, Nat.sub_zero]
    rw [List.get?_eq_get hlt]
  · intro i h
    have hpos : 0 < d.faces.length := by omega
    refine ⟨constRng i, ⟨fun _ => i, 1⟩, ?_⟩
    simp only [GenericDie.roll, genRange, if_pos hpos, Rng.next, constRng, Nat.zero_add,
      Nat.sub_zero, Nat.mod_eq_of_lt h]
    rw [List.get?_eq_get h]

/-- C6 witness: a three-face die rolled with the identity-stream source. -/
theorem genericDie_roll_fail_fast_witness :
    ∃ (i : Nat) (h : i < (GenericDie.new_from [10, 20, 30]).faces.length) (r2 : Rng),
      GenericDie.roll (GenericDie.new_from [10, 20, 30]) (natRng 0) =
        some ((GenericDie.new_from [10, 20, 30]).faces.get ⟨i, h⟩, r2) :=
  (genericDie_roll_fail_fast (GenericDie.new_from [10, 20, 30]) (natRng 0)).2.1
    (by simp [GenericDie.new_from])

/-- C8: rolling the same die (range or generic, owned or by-reference) with two
random sources in identical states produces equal results and equal final
source states — each roll operation is a pure function of the die and the
source, and the die value is unchanged by the call. -/
theorem roll_deterministic {T : Type} (gd : GenericDie T) (rd : RangeDie)
    (r1 r2 : Rng) (h : r1 = r2) :
    GenericDie.roll gd r1 = GenericDie.roll gd r2 ∧
      GenericDie.rollRef gd r1 = GenericDie.rollRef gd r2 ∧
      RangeDie.roll rd r1 = RangeDie.roll rd r2 ∧
      RangeDie.rollRef rd r1 = RangeDie.rollRef rd r2 := by
  subst h
  exact ⟨rfl, rfl, rfl, rfl⟩

/-- C8 witness at a concrete die and source. -/
theorem roll_deterministic_witness :
    GenericDie.roll (GenericDie.new_from [10, 20, 30]) (natRng 0) =
        GenericDie.roll (GenericDie.new_from [10, 20, 30]) (natRng 0) ∧
      GenericDie.rollRef (GenericDie.new_from [10, 20, 30]) (natRng 0) =
        GenericDie.rollRef (GenericDie.new_from [10, 20, 30]) (natRng 0) ∧
      RangeDie.roll (RangeDie.new 1 6) (natRng 0) =
        RangeDie.roll (RangeDie.new 1 6) (natRng 0) ∧
      RangeDie.rollRef (RangeDie.new 1 6) (natRng 0) =
        RangeDie.rollRef (RangeDie.new 1 6) (natRng 0) :=
  roll_deterministic (GenericDie.new_from [10, 20, 30]) (RangeDie.new 1 6)
    (natRng 0) (natRng 0) rfl

/-- C9: `GenericDie::new_from` never fails at construction, even on an empty
input: it stores as faces exactly the yielded values in order (duplicates
preserved), and the empty-face-list failure surfaces only later, at roll
time. -/
theorem new_from_total {T : Type} (l : List T) (r : Rng) :
    (GenericDie.new_from l).faces = l ∧
      (l = [] → GenericDie.roll (GenericDie.new_from l) r = none) := by
  refine ⟨rfl, ?_⟩
  intro h
  subst h
  rfl

/-- C9 witness: the empty-list construction succeeds and its roll panics. -/
theorem new_from_total_witness :
    (GenericDie.new_from ([] : List Nat)).faces = [] ∧
      GenericDie.roll (GenericDie.new_from ([] : List Nat)) (natRng 0) = none :=
  ⟨(new_from_total ([] : List Nat) (natRng 0)).1,
    (new_from_total ([] : List Nat) (natRng 0)).2 rfl⟩

/-- C10: for every die and every source state, the by-reference roll
implementations produce exactly the same result and final source state as the
owned ones. -/
theorem rollRef_eq_roll {T : Type} (gd : GenericDie T) (rd : RangeDie) (r : Rng) :
    GenericDie.rollRef gd r = GenericDie.roll gd r ∧
      RangeDie.rollRef rd r = RangeDie.roll rd r :=
  ⟨rfl, rfl⟩

end RustyDice
